import Mathlib

/-!
# Verification of the timeline data pipeline

Shallow embedding of `src/pages/01_linha_do_Tempo.py` (a Streamlit page):
the data-loading, column-normalization, field-derivation and
filtering/sorting pipeline, together with the CSV export used by the
download button.

Modelling conventions:

* A pandas cell is a `PyVal`: either a Python `str`, a Python `int`
  (as produced by `read_csv` integer inference), or the missing marker
  `NaN`.  Float cells are not modelled; every theorem that depends on
  `read_csv` re-inference carries hypotheses that keep the relevant
  cells outside all numeric-like / NA-like / bool-like token shapes, so
  the unmodelled float path is never exercised.
* Python `\s`, `str.strip` and `str.lower` are modelled on the ASCII
  range (space, tab, LF, CR, FF, VT; letters A–Z), which covers every
  string any theorem below touches; `\d` is modelled as ASCII digits.
* `DataFrame.sort_values(["year_key", "title"])` sorts with
  `numpy.lexsort`, a stable ascending sort on the key pair; it is
  modelled with `List.insertionSort`, which is stable.
* `Series.str.contains(q)` (its default `regex=True`) is modelled for
  patterns built from ordinary characters and the wildcard `.`; every
  theorem about it either uses only such patterns or assumes the
  pattern is metacharacter-free.
-/

namespace Timeline

/-- A pandas cell value: a Python string, a Python integer (from
`read_csv` inference), or the missing-value marker `NaN`. -/
inductive PyVal where
  | str (s : String)
  | int (n : Int)
  | nan
deriving DecidableEq, Repr

/-- Whitespace characters recognised by Python `\s` / `str.strip`
(ASCII range). -/
def isWS (c : Char) : Bool :=
  c = ' ' || c = '\t' || c = '\n' || c = '\x0d' || c = '\x0b' || c = '\x0c'

/-- ASCII decimal digit (model of `\d`). -/
def isDigitA (c : Char) : Bool :=
  '0' ≤ c && c ≤ '9'

/-- Lower-case one character (model of `str.lower`, ASCII range). -/
def lowerChar (c : Char) : Char :=
  if 'A' ≤ c && c ≤ 'Z' then Char.ofNat (c.toNat + 32) else c

/-- Model of Python `str.lower()`. -/
def pyLower (s : String) : String :=
  ⟨s.data.map lowerChar⟩

/-- Strip leading and trailing whitespace from a character list. -/
def stripChars (l : List Char) : List Char :=
  ((l.dropWhile isWS).reverse.dropWhile isWS).reverse

/-- Model of Python `str.strip()`. -/
def pyStrip (s : String) : String :=
  ⟨stripChars s.data⟩

/-- Numeric value of an ASCII digit. -/
def digitVal (c : Char) : Nat := c.toNat - '0'.toNat

/-- If the list starts with four ASCII digits, their value
(`re` matches `\d{4}` at this position). -/
def fourDigitsAt : List Char → Option Nat
  | a :: b :: c :: d :: _ =>
    if isDigitA a && isDigitA b && isDigitA c && isDigitA d then
      some (digitVal a * 1000 + digitVal b * 100 + digitVal c * 10 + digitVal d)
    else
      none
  | _ => none

/-- Leftmost match of `re.search(r"(\d{4})", ·)`: scan positions left to
right, return the value of the first window of four consecutive digits. -/
def scanFourDigits : List Char → Option Nat
  | [] => none
  | c :: rest =>
    match fourDigitsAt (c :: rest) with
    | some v => some v
    | none => scanFourDigits rest

/-- Embedding of `first_year_from_text` (src lines 24–32): non-`str`
input yields the sentinel `10^9`; otherwise the first `\d{4}` match as
an integer, else the sentinel. -/
def first_year_from_text (v : PyVal) : Int :=
  match v with
  | .str s =>
    match scanFourDigits s.data with
    | some v => (v : Int)
    | none => 10 ^ 9
  | _ => 10 ^ 9

/-- The single-character separators of `split_themes`:
the regex class `[,;/&]`. -/
def isSepChar (c : Char) : Bool :=
  c = ',' || c = ';' || c = '/' || c = '&'

/-- The letter `e` under `re.IGNORECASE`. -/
def isE (c : Char) : Bool :=
  c = 'e' || c = 'E'

/-- Scanner state for `re.split(r"\s+e\s+|[,;/&]", s, flags=IGNORECASE)`.

The alternative `\s+e\s+` can only match with the `e` at the end of a
maximal whitespace run (the char before the `e` is whitespace, so a
leftmost match starting inside the run puts every whitespace char of
the run inside `\s+`), and greedy `\s+` then swallows the maximal
whitespace run after the `e`.  The scanner below walks the string once,
tracking a pending whitespace run (`wsrun`), a pending run followed by
`e`/`E` (`afterE`), and the tail of a confirmed separator (`sepws`). -/
inductive SplitSt where
  | plain
  | wsrun (ws : List Char)
  | afterE (ws : List Char) (e : Char)
  | sepws
deriving Repr

/-- One left-to-right pass of `re.split(r"\s+e\s+|[,;/&]", ·, IGNORECASE)`:
returns the raw (untrimmed) fragments. `cur` is the current fragment. -/
def splitScan (cur : List Char) (st : SplitSt) : List Char → List (List Char)
  | [] =>
    match st with
    | .plain => [cur]
    | .wsrun ws => [cur ++ ws]
    | .afterE ws e => [cur ++ ws ++ [e]]
    | .sepws => [cur]
  | c :: rest =>
    match st with
    | .plain =>
      if isSepChar c then cur :: splitScan [] .plain rest
      else if isWS c then splitScan cur (.wsrun [c]) rest
      else splitScan (cur ++ [c]) .plain rest
    | .wsrun ws =>
      if isWS c then splitScan cur (.wsrun (ws ++ [c])) rest
      else if isE c then splitScan cur (.afterE ws c) rest
      else if isSepChar c then (cur ++ ws) :: splitScan [] .plain rest
      else splitScan (cur ++ ws ++ [c]) .plain rest
    | .afterE ws e =>
      if isWS c then cur :: splitScan [] .sepws rest
      else if isSepChar c then (cur ++ ws ++ [e]) :: splitScan [] .plain rest
      else splitScan (cur ++ ws ++ [e, c]) .plain rest
    | .sepws =>
      if isWS c then splitScan cur .sepws rest
      else if isSepChar c then cur :: splitScan [] .plain rest
      else splitScan (cur ++ [c]) .plain rest

/-- Embedding of `split_themes` (src lines 35–44): non-`str` input gives
`[]`; otherwise split on `\s+e\s+|[,;/&]` (case-insensitive), strip each
fragment, drop fragments that are empty after stripping. -/
def split_themes (v : PyVal) : List String :=
  match v with
  | .str s =>
    (((splitScan [] .plain s.data).map stripChars).filter (· ≠ [])).map
      (fun cs => (⟨cs⟩ : String))
  | _ => []

/-- The four logical columns, `REQUIRED_COLS` in the source. -/
def REQUIRED_COLS : List String := ["period", "title", "description", "theme"]

/-- A pandas DataFrame: a header list and rows of cells, each row
aligned positionally with the headers. -/
structure RawTable where
  headers : List String
  rows : List (List PyVal)
deriving DecidableEq, Repr

/-- `c.lower().strip()` as used to build `colmap`. -/
def lowerStrip (s : String) : String := pyStrip (pyLower s)

/-- Contiguous-substring test, Python `needle in hay`. -/
def substrB (needle : List Char) : List Char → Bool
  | [] => needle.isEmpty
  | c :: t => (needle == (c :: t).take needle.length) || substrB needle t

/-- Exact case-insensitive lookup through
`colmap = {c.lower().strip(): c for c in df.columns}`: a dict
comprehension, so among headers with the same normalized name the LAST
one wins.  Returns the index of that header. -/
def exactIdx (headers : List String) (want : String) : Option Nat :=
  ((headers.enum.filter (fun p => lowerStrip p.2 == want)).getLast?).map (fun p => p.1)

/-- Fallback lookup: the first header (source column order) whose
lower-cased form contains `want` as a substring
(`for c in df.columns: if want in c.lower(): ...; break`). -/
def substrIdx (headers : List String) (want : String) : Option Nat :=
  (headers.enum.find? (fun p => substrB want.data (pyLower p.2).data)).map (fun p => p.1)

/-- Column resolution for one logical name: exact case-insensitive
match first, else first substring match. -/
def resolveCol (headers : List String) (want : String) : Option Nat :=
  (exactIdx headers want).orElse (fun _ => substrIdx headers want)

/-- Embedding of `normalize_columns` (src lines 47–68) including the
pandas semantics of building onto `out = pd.DataFrame()`:

* assigning a scalar `""` to a frame whose index is empty leaves the
  column with zero rows;
* the first assignment of a real source column (`out[want] = df[col]`)
  establishes the index (pandas `_ensure_valid_index`), NaN-backfilling
  every column assigned before it;
* scalar `""` assigned after the index is established broadcasts to a
  full column of empty strings.

Hence: if no logical column resolves, the result has the four headers
and zero rows; otherwise logical columns before the first resolved one
are NaN-filled and later unresolved ones are empty strings. -/
def normalize_columns (t : RawTable) : RawTable :=
  let rs := REQUIRED_COLS.map (resolveCol t.headers)
  if rs.all (fun o => o.isNone) then ⟨REQUIRED_COLS, []⟩
  else
    let firstS := rs.findIdx (fun o => o.isSome)
    ⟨REQUIRED_COLS,
      t.rows.map (fun row =>
        rs.enum.map (fun p =>
          match p.2 with
          | some i => row.getD i .nan
          | none => if p.1 < firstS then PyVal.nan else PyVal.str ""))⟩

/-- One logical row of the working table. -/
structure Row where
  period : PyVal
  title : PyVal
  description : PyVal
  theme : PyVal
deriving DecidableEq, Repr

/-- A row after the Field Deriver attached `year_key` and
`themes_list`. -/
structure Event where
  period : PyVal
  title : PyVal
  description : PyVal
  theme : PyVal
  year_key : Int
  themes_list : List String
deriving DecidableEq, Repr

/-- Read one normalized 4-cell row into a `Row`. -/
def toRow (cells : List PyVal) : Row :=
  ⟨cells.getD 0 .nan, cells.getD 1 .nan, cells.getD 2 .nan, cells.getD 3 .nan⟩

/-- The Field Deriver:
`df["year_key"] = df["period"].apply(first_year_from_text)` and
`df["themes_list"] = df["theme"].apply(split_themes)`. -/
def enrich (r : Row) : Event :=
  ⟨r.period, r.title, r.description, r.theme,
    first_year_from_text r.period, split_themes r.theme⟩

/-- The hardcoded fallback dataset of `load_data_from_sheet`. -/
def fallbackRows : List Row :=
  [⟨.str "A partir de 1760", .str "Primeira Revolução Industrial",
    .str "Transição da manufatura para a maquinofatura, uso do carvão e máquina a vapor.",
    .str "Geografia Econômica"⟩,
   ⟨.str "1884-1885", .str "Conferência de Berlim",
    .str "Formalização da 'Partilha da África' pelas potências europeias.",
    .str "Geopolítica"⟩,
   ⟨.str "1939-1945", .str "Segunda Guerra Mundial",
    .str "Consolidou EUA e URSS como superpotências; início da ordem bipolar.",
    .str "Geopolítica"⟩]

/-- Embedding of `load_data_from_sheet` (src lines 71–106).  The
`pd.read_csv(CSV_URL)` call together with `normalize_columns` sits in a
`try`; its outcome is the `fetched` argument: `.ok df` when fetch and
parse succeed, `.error ()` when any exception is raised.  On error the
fallback dataset is substituted; either way the Field Deriver is then
applied to every row. -/
def load_data_from_sheet (fetched : Except Unit RawTable) : List Event :=
  (match fetched with
   | .ok df => (normalize_columns df).rows.map toRow
   | .error _ => fallbackRows).map enrich

/-- Python `str(value)` as applied by `astype(str)` to a cell. -/
def pyStr (v : PyVal) : String :=
  match v with
  | .str s => s
  | .int n => toString n
  | .nan => "nan"

/-- Regex match of a pattern against the start of a text, for patterns
built from ordinary characters and the wildcard `.` (which matches any
character except a newline). -/
def reMatchAt : List Char → List Char → Bool
  | [], _ => true
  | _ :: _, [] => false
  | p :: ps, d :: ds => (if p = '.' then d != '\n' else p == d) && reMatchAt ps ds

/-- Model of `Series.str.contains(pat)` with its default `regex=True`
(`re.search` semantics), for patterns in the fragment of Python regex
syntax consisting of ordinary characters and `.`.  Theorems below only
instantiate it inside that fragment. -/
def pyContains (pat : String) (s : String) : Bool :=
  (List.range (s.data.length + 1)).any (fun i => reMatchAt pat.data (s.data.drop i))

/-- The theme-filter stage of `filter_df` (src lines 110–112):
`if selected_themes: df = df[df["themes_list"].apply(lambda lst:
any(t in lst for t in selected_themes))]`. -/
def themeStage (df : List Event) (selected : List String) : List Event :=
  if selected.isEmpty then df
  else df.filter (fun r => selected.any (fun t => r.themes_list.contains t))

/-- The text-filter stage of `filter_df` (src lines 113–122): when the
query is non-empty, `q = query.strip().lower()` and a row survives when
`q` matches (`str.contains`, regex search) the lower-cased string form
of its title, description, period or theme. -/
def textStage (df : List Event) (query : String) : List Event :=
  if query = "" then df
  else
    let q := pyLower (pyStrip query)
    df.filter (fun r =>
      pyContains q (pyLower (pyStr r.title)) ||
      pyContains q (pyLower (pyStr r.description)) ||
      pyContains q (pyLower (pyStr r.period)) ||
      pyContains q (pyLower (pyStr r.theme)))

/-- Comparison of cells as sort keys.  On two strings it is Python
string comparison (lexicographic on code points); the cross-constructor
cases are a totalization chosen for the model (pandas raises on
mixed-type comparisons, a case no theorem below relies on). -/
def pyLeB (a b : PyVal) : Bool :=
  match a, b with
  | .nan, _ => true
  | .int _, .nan => false
  | .int m, .int n => decide (m ≤ n)
  | .int _, .str _ => true
  | .str _, .nan => false
  | .str _, .int _ => false
  | .str s, .str t => decide (s ≤ t)

/-- The sort key of `df.sort_values(["year_key", "title"],
ascending=[True, True])`: ascending on `year_key` first, then on
`title`. -/
def rowLeB (a b : Event) : Bool :=
  decide (a.year_key < b.year_key) ||
    (decide (a.year_key = b.year_key) && pyLeB a.title b.title)

/-- `rowLeB` as a relation. -/
def rowLe (a b : Event) : Prop := rowLeB a b = true

instance : DecidableRel rowLe := fun _ _ => instDecidableEqBool _ _

/-- Embedding of `filter_df` (src lines 109–123): theme stage, then
text stage, then a stable ascending sort on `(year_key, title)`
(pandas multi-key `sort_values` sorts with the stable `numpy.lexsort`;
modelled by the stable `List.insertionSort`). -/
def filter_df (df : List Event) (selected : List String) (query : String) : List Event :=
  List.insertionSort rowLe (textStage (themeStage df selected) query)

/-! ## CSV export and re-import

`csv_bytes = filtered[REQUIRED_COLS].to_csv(index=False).encode("utf-8")`
(src line 144) and the re-load path `pd.read_csv` → `normalize_columns`
→ Field Deriver.  `to_csv` writes with QUOTE_MINIMAL (quote a field iff
it contains the delimiter, the quote char, or a CR/LF; double embedded
quotes), newline `\n` as row terminator, missing values as empty text.
`read_csv` is modelled with its default NA-token filtering and integer
column inference; float and boolean column inference are not modelled
(theorems that rely on re-import keep the relevant cells away from all
numeric-like and NA-like token shapes). -/

/-- QUOTE_MINIMAL: does this field need quoting? -/
def needsQuote (s : String) : Bool :=
  s.data.any (fun c => c = ',' || c = '"' || c = '\n' || c = '\x0d')

/-- Double every quote character. -/
def escapeQuotes : List Char → List Char
  | [] => []
  | c :: rest => (if c = '"' then ['"', '"'] else [c]) ++ escapeQuotes rest

/-- Serialize one field (QUOTE_MINIMAL). -/
def writeField (s : String) : List Char :=
  if needsQuote s then '"' :: (escapeQuotes s.data ++ ['"']) else s.data

/-- The text `to_csv` writes for a cell: missing values as empty
text, integers in decimal, strings as themselves. -/
def cellRepr (v : PyVal) : String :=
  match v with
  | .str s => s
  | .int n => toString n
  | .nan => ""

/-- Serialize one record: fields joined by `,`, terminated by `\n`. -/
def writeRowCSV : List String → List Char
  | [] => ['\n']
  | [c] => writeField c ++ ['\n']
  | c :: cs => writeField c ++ ',' :: writeRowCSV cs

/-- The four logical cells of an event, in `REQUIRED_COLS` order
(`filtered[REQUIRED_COLS]`). -/
def eventCells (r : Event) : List String :=
  [cellRepr r.period, cellRepr r.title, cellRepr r.description, cellRepr r.theme]

/-- Embedding of `csv_bytes` (src line 144): header row, then one
record per event. -/
def csv_bytes (tbl : List Event) : String :=
  ⟨writeRowCSV REQUIRED_COLS ++ (tbl.map (fun r => writeRowCSV (eventCells r))).flatten⟩

/-- CSV tokenizer state: start of field, in unquoted field, in quoted
field, just after a quote inside a quoted field. -/
inductive CSVSt where
  | s0
  | su
  | sq
  | se
deriving Repr

/-- Single-pass CSV tokenizer (the record/field grammar of the pandas
C parser on files written with QUOTE_MINIMAL): fields separated by `,`,
records by `\n`, quoted fields may contain separators and newlines,
doubled quotes denote a literal quote. -/
def splitCSV (st : CSVSt) (curF : List Char) (curRow : List String) :
    List Char → List (List String)
  | [] =>
    match st with
    | .s0 => if curF = [] && curRow = [] then [] else [curRow ++ [(⟨curF⟩ : String)]]
    | _ => [curRow ++ [(⟨curF⟩ : String)]]
  | c :: rest =>
    match st with
    | .s0 =>
      if c = '"' then splitCSV .sq curF curRow rest
      else if c = ',' then splitCSV .s0 [] (curRow ++ [(⟨curF⟩ : String)]) rest
      else if c = '\n' then (curRow ++ [(⟨curF⟩ : String)]) :: splitCSV .s0 [] [] rest
      else splitCSV .su (curF ++ [c]) curRow rest
    | .su =>
      if c = ',' then splitCSV .s0 [] (curRow ++ [(⟨curF⟩ : String)]) rest
      else if c = '\n' then (curRow ++ [(⟨curF⟩ : String)]) :: splitCSV .s0 [] [] rest
      else splitCSV .su (curF ++ [c]) curRow rest
    | .sq =>
      if c = '"' then splitCSV .se curF curRow rest
      else splitCSV .sq (curF ++ [c]) curRow rest
    | .se =>
      if c = '"' then splitCSV .sq (curF ++ ['"']) curRow rest
      else if c = ',' then splitCSV .s0 [] (curRow ++ [(⟨curF⟩ : String)]) rest
      else if c = '\n' then (curRow ++ [(⟨curF⟩ : String)]) :: splitCSV .s0 [] [] rest
      else splitCSV .su (curF ++ [c]) curRow rest

/-- The default `read_csv` NA tokens (a field equal to one of these
reads back as a missing value). -/
def naTokens : List String :=
  ["", "#N/A", "#N/A N/A", "#NA", "-1.#IND", "-1.#QNAN", "-NaN", "-nan",
   "1.#IND", "1.#QNAN", "<NA>", "N/A", "NA", "NULL", "NaN", "None",
   "n/a", "nan", "null"]

/-- Is this field text one of the NA tokens? -/
def isNAText (s : String) : Bool := naTokens.contains s

/-- Integer-literal field shape accepted by `read_csv` integer
inference: optional sign, then one or more digits. -/
def isIntLit (s : String) : Bool :=
  match s.data with
  | [] => false
  | c :: rest =>
    let digits := if c = '-' || c = '+' then rest else c :: rest
    !digits.isEmpty && digits.all isDigitA

/-- Value of a digit string. -/
def natOfDigits (l : List Char) : Nat :=
  l.foldl (fun acc c => acc * 10 + digitVal c) 0

/-- Integer value of an integer-literal field. -/
def parseIntLit (s : String) : Int :=
  match s.data with
  | '-' :: rest => -(natOfDigits rest : Int)
  | '+' :: rest => (natOfDigits rest : Int)
  | l => (natOfDigits l : Int)

/-- `read_csv` column inference (the fragment modelled): NA tokens
become missing values; a column whose non-missing fields are all
integer literals (and which has at least one) becomes an integer
column; otherwise the non-missing fields stay strings. -/
def inferColumn (cs : List String) : List PyVal :=
  if !(cs.filter (fun s => !isNAText s)).isEmpty &&
      (cs.filter (fun s => !isNAText s)).all isIntLit then
    cs.map (fun s => if isNAText s then PyVal.nan else PyVal.int (parseIntLit s))
  else
    cs.map (fun s => if isNAText s then PyVal.nan else PyVal.str s)

/-- Model of `pd.read_csv` on CSV text: first record is the header,
remaining records are data rows, short rows padded with missing values,
then per-column inference. -/
def read_csv (text : String) : RawTable :=
  match splitCSV .s0 [] [] text.data with
  | [] => ⟨[], []⟩
  | hdr :: dataRows =>
    let cols := (List.range hdr.length).map
      (fun j => inferColumn (dataRows.map (fun r => r.getD j "")))
    ⟨hdr, (List.range dataRows.length).map (fun i => cols.map (fun col => col.getD i .nan))⟩

/-- The round trip of the export surface: serialize the filtered
table, read the CSV back, normalize the columns and re-derive the
fields. -/
def reloadCSV (tbl : List Event) : List Event :=
  ((normalize_columns (read_csv (csv_bytes tbl))).rows.map toRow).map enrich

/-! ## Spec-side definitions

These follow the specification's words (not the source) and exist to be
compared with the source-side embeddings. -/

/-- Four consecutive ASCII digits occur at position `i`. -/
def fourAtB (l : List Char) (i : Nat) : Bool :=
  (((l.drop i).take 4).length == 4) && ((l.drop i).take 4).all isDigitA

/-- Position `i` starts a maximal digit run. -/
def runStart (l : List Char) (i : Nat) : Bool :=
  decide (i < l.length) && isDigitA (l.getD i ' ') &&
    (i == 0 || !isDigitA (l.getD (i - 1) ' '))

/-- Length of the digit run starting at position `i`. -/
def runLen (l : List Char) (i : Nat) : Nat :=
  ((l.drop i).takeWhile isDigitA).length

/-- Spec-side reading of the claim "the first run of exactly 4
consecutive digits": the first maximal digit run whose length is
exactly 4, as a value. -/
def specFirstExact4Run (l : List Char) : Option Nat :=
  (((List.range l.length).filter (fun i => runStart l i && (runLen l i == 4))).head?).map
    (fun i => natOfDigits ((l.drop i).take 4))

/-- Spec-side year extraction per the claim's words: value of the first
maximal run of exactly 4 digits, else the sentinel. -/
def specFirstYearExact (s : String) : Int :=
  match specFirstExact4Run s.data with
  | some v => (v : Int)
  | none => 10 ^ 9

/-- Spec-side Column Normalizer per the claim's words: exactly the four
logical columns in order, each resolved by the exact/substring rules,
with a column of empty strings for unresolved names and the row count
always preserved. -/
def specNormalize (t : RawTable) : RawTable :=
  ⟨REQUIRED_COLS, t.rows.map (fun row =>
    REQUIRED_COLS.map (fun w =>
      match resolveCol t.headers w with
      | some i => row.getD i .nan
      | none => PyVal.str ""))⟩

/-! ## Further definitions used by the theorems -/

/-- Characters stored inside a split-scanner state (they may be flushed
into a fragment later). -/
def stChars : SplitSt → List Char
  | .plain => []
  | .wsrun ws => ws
  | .afterE ws e => ws ++ [e]
  | .sepws => []

/-- Python regex metacharacters: a pattern avoiding all of these is a
literal. -/
def regexMeta : List Char :=
  ['.', '^', '$', '*', '+', '?', '\x7b', '\x7d', '[', ']', '\\', '|', '(', ')']

/-- A regex-ordinary character (matches only itself). -/
def regexOrdinary (c : Char) : Bool := !regexMeta.contains c

/-- Spec-side notion for the text filter: `needle` occurs as a literal
(contiguous) substring of `hay`, i.e. `hay` decomposes as some prefix,
then `needle`, then some suffix. -/
def IsLiteralSubstr (needle hay : String) : Prop :=
  ∃ pre post : List Char, hay.data = pre ++ needle.data ++ post

/-- Shape of a field the `read_csv` numeric converter accepts
(optional sign, digits, optional fraction dot, optional exponent),
allowing surrounding whitespace.  Exponent tail check: -/
def expoOK : List Char → Bool
  | [] => true
  | c :: rest =>
    isE c &&
      (let d := match rest with
                | x :: xs => if x = '+' || x = '-' then xs else x :: xs
                | [] => []
       !d.isEmpty && d.all isDigitA)

/-- Core numeric-literal shape (no surrounding whitespace). -/
def numericCore (l : List Char) : Bool :=
  let l1 := match l with
            | c :: rest => if c = '-' || c = '+' then rest else c :: rest
            | [] => []
  let intPart := l1.takeWhile isDigitA
  match l1.dropWhile isDigitA with
  | [] => !intPart.isEmpty
  | '.' :: r2 =>
    let frac := r2.takeWhile isDigitA
    (!intPart.isEmpty || !frac.isEmpty) && expoOK (r2.dropWhile isDigitA)
  | r1 => !intPart.isEmpty && expoOK r1

/-- A field text the `read_csv` numeric converter could accept. -/
def numericLike (s : String) : Bool := numericCore (stripChars s.data)

/-- Tokens (lower-cased) that `read_csv` may coerce to booleans or
infinities — column shapes the model does not cover, so theorems about
re-import exclude them. -/
def boolInfTokens : List String :=
  ["true", "false", "inf", "infinity", "+inf", "-inf", "+infinity", "-infinity"]

/-- A string that `read_csv` reads back as exactly the same string:
not an NA token, not numeric-shaped, not a boolean/infinity token. -/
def safeStr (s : String) : Bool :=
  !isNAText s && !numericLike s && !boolInfTokens.contains (pyLower s)

/-- A period/theme cell that survives the CSV round trip: missing, or a
safe string (an integer cell would come back as a string in a mixed
column). -/
def safeCell (v : PyVal) : Bool :=
  match v with
  | .nan => true
  | .str s => safeStr s
  | .int _ => false

/-- An event whose derived fields agree with the Field Deriver (true of
every row the Loader produces). -/
def derivedEvent (r : Event) : Prop :=
  r.year_key = first_year_from_text r.period ∧ r.themes_list = split_themes r.theme

/-- Sample events used as concrete instances in witnesses and
counterexamples. -/
def sampleDated : Event := ⟨.str "1940", .str "b", .str "", .str "", 1940, ["A"]⟩

/-- A sample event with the sentinel year key. -/
def sampleUndated : Event := ⟨.str "sem data", .str "a", .str "", .str "", 10 ^ 9, ["B"]⟩

/-- A sample event with two themes. -/
def sampleAB : Event := ⟨.str "", .str "t", .str "", .str "A e B", 10 ^ 9, ["A", "B"]⟩

/-- A sample event with one capitalized theme. -/
def sampleGeo : Event :=
  ⟨.str "1884-1885", .str "Conferência de Berlim", .str "", .str "Geopolítica", 1884,
    ["Geopolítica"]⟩

/-- A sample event whose title contains no dot. -/
def sampleAbc : Event := ⟨.str "", .str "abc", .str "", .str "", 10 ^ 9, []⟩

/-- The spec's end-to-end query scenario row. -/
def sampleGuerra : Event :=
  ⟨.str "1939-1945", .str "Segunda Guerra Mundial", .str "", .str "Geopolítica", 1939,
    ["Geopolítica"]⟩

/-! ## Helper lemmas -/

theorem fourDigitsAt_eq (l : List Char) :
    fourDigitsAt l = if fourAtB l 0 then some (natOfDigits (l.take 4)) else none := by
  match l with
  | [] => rfl
  | [a] => simp [fourDigitsAt, fourAtB]
  | [a, b] => simp [fourDigitsAt, fourAtB]
  | [a, b, c] => simp [fourDigitsAt, fourAtB]
  | a :: b :: c :: d :: rest =>
    by_cases h : isDigitA a && isDigitA b && isDigitA c && isDigitA d
    · have hb : fourAtB (a :: b :: c :: d :: rest) 0 = true := by
        simp only [fourAtB, List.drop_zero, List.take_succ_cons, List.take_zero] at h ⊢
        simp_all [List.all_cons]
      simp only [fourDigitsAt, h, if_true, hb]
      refine congrArg some ?_
      simp only [List.take_succ_cons, List.take_zero, natOfDigits, List.foldl, digitVal]
      omega
    · have hb : fourAtB (a :: b :: c :: d :: rest) 0 = false := by
        simp only [fourAtB, List.drop_zero, List.take_succ_cons, List.take_zero] at h ⊢
        simp_all [List.all_cons]
      simp [fourDigitsAt, hb, h]

theorem fourAtB_cons (c : Char) (l : List Char) (j : Nat) :
    fourAtB (c :: l) (j + 1) = fourAtB l j := by
  simp [fourAtB]

theorem scanFourDigits_eq_none (l : List Char) (h : ∀ i, fourAtB l i = false) :
    scanFourDigits l = none := by
  induction l with
  | nil => rfl
  | cons c rest ih =>
    have h0 := h 0
    rw [scanFourDigits, fourDigitsAt_eq, h0]
    exact ih (fun i => by rw [← fourAtB_cons c rest i]; exact h (i + 1))

theorem scanFourDigits_eq_some (l : List Char) (i : Nat)
    (hi : fourAtB l i = true) (hmin : ∀ j, j < i → fourAtB l j = false) :
    scanFourDigits l = some (natOfDigits ((l.drop i).take 4)) := by
  induction l generalizing i with
  | nil => simp [fourAtB] at hi
  | cons c rest ih =>
    match i with
    | 0 =>
      rw [scanFourDigits, fourDigitsAt_eq, hi]
      simp
    | i + 1 =>
      have h0 : fourAtB (c :: rest) 0 = false := hmin 0 (Nat.succ_pos i)
      rw [scanFourDigits, fourDigitsAt_eq, h0]
      simp only [if_false, Bool.false_eq_true]
      have := ih i (by rw [← fourAtB_cons c rest i]; exact hi)
        (fun j hj => by rw [← fourAtB_cons c rest j]; exact hmin (j + 1) (by omega))
      rw [this]
      simp [List.drop_succ_cons]

/-! ## C1: loader fallback -/

/-- C1: when fetching or parsing the remote CSV raises, the error is
not propagated: `load_data_from_sheet` returns the embedded three-row
fallback dataset (four logical columns), with the Field Deriver applied,
so every returned row carries its `year_key` and `themes_list`. -/
theorem C1_loader_fallback :
    load_data_from_sheet (.error ()) =
      [⟨.str "A partir de 1760", .str "Primeira Revolução Industrial",
        .str "Transição da manufatura para a maquinofatura, uso do carvão e máquina a vapor.",
        .str "Geografia Econômica", 1760, ["Geografia Econômica"]⟩,
       ⟨.str "1884-1885", .str "Conferência de Berlim",
        .str "Formalização da 'Partilha da África' pelas potências europeias.",
        .str "Geopolítica", 1884, ["Geopolítica"]⟩,
       ⟨.str "1939-1945", .str "Segunda Guerra Mundial",
        .str "Consolidou EUA e URSS como superpotências; início da ordem bipolar.",
        .str "Geopolítica", 1939, ["Geopolítica"]⟩] := by
  rfl

/-! ## C4: year extraction -/

/-- C4 (counterexample): on `"12345"` the code returns 1234 (the regex
`\d{4}` matches inside the longer digit run), while the claim's "first
run of exactly 4 consecutive digits" does not exist there, so the claim
demands the sentinel. -/
theorem C4_counterexample :
    first_year_from_text (.str "12345") = 1234 ∧ specFirstExact4Run "12345".data = none ∧
      first_year_from_text (.str "12345") ≠ specFirstYearExact "12345" := by
  refine ⟨by decide, by decide, by decide⟩

/-- C4 (amended): `first_year_from_text` returns the sentinel `10^9` on
non-string input and on strings containing no four consecutive digits;
otherwise it returns the value of the first window of four consecutive
digits — even when that window sits inside a longer digit run — and in
particular `"1939-1945"` yields 1939. -/
theorem C4_first_year_characterization :
    (∀ v : PyVal, (∀ s, v ≠ .str s) → first_year_from_text v = 10 ^ 9) ∧
    (∀ s : String, (∀ i, fourAtB s.data i = false) → first_year_from_text (.str s) = 10 ^ 9) ∧
    (∀ (s : String) (i : Nat), fourAtB s.data i = true →
      (∀ j, j < i → fourAtB s.data j = false) →
      first_year_from_text (.str s) = (natOfDigits ((s.data.drop i).take 4) : Int)) ∧
    first_year_from_text (.str "1939-1945") = 1939 := by
  refine ⟨?_, ?_, ?_, by decide⟩
  · intro v h
    cases v with
    | str s => exact absurd rfl (h s)
    | int n => rfl
    | nan => rfl
  · intro s h
    simp [first_year_from_text, scanFourDigits_eq_none _ h]
  · intro s i hi hmin
    simp [first_year_from_text, scanFourDigits_eq_some _ _ hi hmin]

/-- C4 witness: the third clause applied at `"1939-1945"`, window at
position 0. -/
theorem C4_witness :
    fourAtB "1939-1945".data 0 = true ∧
      first_year_from_text (.str "1939-1945") =
        (natOfDigits (("1939-1945".data.drop 0).take 4) : Int) :=
  ⟨by decide, C4_first_year_characterization.2.2.1 "1939-1945" 0 (by decide)
    (fun j hj => absurd hj (Nat.not_lt_zero j))⟩

/-! ## C5: theme splitting -/

theorem head?_dropWhile_not {p : Char → Bool} :
    ∀ (l : List Char) (h : Char), (l.dropWhile p).head? = some h → p h = false := by
  intro l
  induction l with
  | nil => intro h hh; simp at hh
  | cons c t ih =>
    intro h hh
    by_cases hc : p c
    · rw [List.dropWhile_cons, if_pos hc] at hh
      exact ih h hh
    · rw [List.dropWhile_cons, if_neg hc] at hh
      cases hh
      simpa using hc

theorem dropWhile_eq_self_of_head {p : Char → Bool} (l : List Char)
    (h : ∀ x, l.head? = some x → p x = false) : l.dropWhile p = l := by
  cases l with
  | nil => rfl
  | cons c t =>
    rw [List.dropWhile_cons, if_neg]
    simp [h c rfl]

theorem getLast?_dropWhile {p : Char → Bool} :
    ∀ l : List Char, l.dropWhile p ≠ [] → (l.dropWhile p).getLast? = l.getLast? := by
  intro l
  induction l with
  | nil => intro h; simp at h
  | cons c t ih =>
    intro h
    by_cases hc : p c
    · rw [List.dropWhile_cons, if_pos hc] at h ⊢
      rw [ih h]
      have ht : t ≠ [] := by
        intro he
        exact h (by simp [he])
      cases t with
      | nil => exact absurd rfl ht
      | cons d u => simp
    · rw [List.dropWhile_cons, if_neg hc]

theorem stripChars_ends (l : List Char) :
    (∀ x, (stripChars l).head? = some x → isWS x = false) ∧
      (∀ x, (stripChars l).getLast? = some x → isWS x = false) := by
  unfold stripChars
  constructor
  · intro x hx
    rw [List.head?_reverse] at hx
    by_cases hy : (l.dropWhile isWS).reverse.dropWhile isWS = []
    · simp [hy] at hx
    · rw [getLast?_dropWhile _ hy, List.getLast?_reverse] at hx
      exact head?_dropWhile_not _ x hx
  · intro x hx
    rw [List.getLast?_reverse] at hx
    exact head?_dropWhile_not _ x hx

theorem stripChars_of_ends (l : List Char)
    (h1 : ∀ x, l.head? = some x → isWS x = false)
    (h2 : ∀ x, l.getLast? = some x → isWS x = false) : stripChars l = l := by
  unfold stripChars
  rw [dropWhile_eq_self_of_head l h1, dropWhile_eq_self_of_head]
  · exact List.reverse_reverse l
  · intro x hx
    rw [List.head?_reverse] at hx
    exact h2 x hx

theorem stripChars_idem (l : List Char) : stripChars (stripChars l) = stripChars l :=
  stripChars_of_ends _ (stripChars_ends l).1 (stripChars_ends l).2

theorem mem_stripChars {c : Char} {l : List Char} (h : c ∈ stripChars l) : c ∈ l := by
  unfold stripChars at h
  rw [List.mem_reverse] at h
  have h2 := List.Sublist.mem h (List.dropWhile_sublist isWS)
  rw [List.mem_reverse] at h2
  exact List.Sublist.mem h2 (List.dropWhile_sublist isWS)

theorem isWS_not_sep {c : Char} (h : isWS c = true) : isSepChar c = false := by
  simp only [isWS, Bool.or_eq_true, decide_eq_true_eq] at h
  rcases h with ((((h | h) | h) | h) | h) | h <;> subst h <;> decide

theorem isE_not_sep {c : Char} (h : isE c = true) : isSepChar c = false := by
  simp only [isE, Bool.or_eq_true, decide_eq_true_eq] at h
  rcases h with h | h <;> subst h <;> decide

/-- No separator character ever appears inside a fragment produced by
the split scanner. -/
theorem splitScan_noSep :
    ∀ (l cur : List Char) (st : SplitSt),
      (∀ c ∈ cur, isSepChar c = false) →
      (∀ c ∈ stChars st, isSepChar c = false) →
      ∀ frag ∈ splitScan cur st l, ∀ c ∈ frag, isSepChar c = false := by
  intro l
  induction l with
  | nil =>
    intro cur st hcur hst frag hfrag c hc
    cases st <;> simp only [splitScan, List.mem_singleton] at hfrag <;> subst hfrag
    · exact hcur c hc
    · rcases List.mem_append.1 hc with h | h
      · exact hcur c h
      · exact hst c h
    · rcases List.mem_append.1 hc with h | h
      · rcases List.mem_append.1 h with h2 | h2
        · exact hcur c h2
        · exact hst c (List.mem_append.2 (Or.inl h2))
      · exact hst c (List.mem_append.2 (Or.inr h))
    · exact hcur c hc
  | cons a rest ih =>
    intro cur st hcur hst frag hfrag c hc
    cases st with
    | plain =>
      rw [splitScan] at hfrag
      by_cases h1 : isSepChar a
      · rw [if_pos h1] at hfrag
        rcases List.mem_cons.1 hfrag with h | h
        · exact hcur c (h ▸ hc)
        · exact ih [] .plain (by simp) (by simp [stChars]) frag h c hc
      · rw [if_neg h1] at hfrag
        by_cases h2 : isWS a
        · rw [if_pos h2] at hfrag
          refine ih cur (.wsrun [a]) hcur ?_ frag hfrag c hc
          intro d hd
          rw [List.mem_singleton.1 hd]
          exact isWS_not_sep h2
        · rw [if_neg h2] at hfrag
          refine ih (cur ++ [a]) .plain ?_ (by simp [stChars]) frag hfrag c hc
          intro d hd
          rcases List.mem_append.1 hd with h | h
          · exact hcur d h
          · rw [List.mem_singleton.1 h]
            exact Bool.not_eq_true _ ▸ (by simpa using h1)
    | wsrun ws =>
      rw [splitScan] at hfrag
      by_cases h1 : isWS a
      · rw [if_pos h1] at hfrag
        refine ih cur (.wsrun (ws ++ [a])) hcur ?_ frag hfrag c hc
        intro d hd
        rcases List.mem_append.1 hd with h | h
        · exact hst d h
        · rw [List.mem_singleton.1 h]
          exact isWS_not_sep h1
      · rw [if_neg h1] at hfrag
        by_cases h2 : isE a
        · rw [if_pos h2] at hfrag
          refine ih cur (.afterE ws a) hcur ?_ frag hfrag c hc
          intro d hd
          rcases List.mem_append.1 hd with h | h
          · exact hst d h
          · rw [List.mem_singleton.1 h]
            exact isE_not_sep h2
        · rw [if_neg h2] at hfrag
          by_cases h3 : isSepChar a
          · rw [if_pos h3] at hfrag
            rcases List.mem_cons.1 hfrag with h | h
            · subst h
              rcases List.mem_append.1 hc with h | h
              · exact hcur c h
              · exact hst c h
            · exact ih [] .plain (by simp) (by simp [stChars]) frag h c hc
          · rw [if_neg h3] at hfrag
            refine ih (cur ++ ws ++ [a]) .plain ?_ (by simp [stChars]) frag hfrag c hc
            intro d hd
            rcases List.mem_append.1 hd with h | h
            · rcases List.mem_append.1 h with h | h
              · exact hcur d h
              · exact hst d h
            · rw [List.mem_singleton.1 h]
              simpa using h3
    | afterE ws e =>
      rw [splitScan] at hfrag
      by_cases h1 : isWS a
      · rw [if_pos h1] at hfrag
        rcases List.mem_cons.1 hfrag with h | h
        · exact hcur c (h ▸ hc)
        · exact ih [] .sepws (by simp) (by simp [stChars]) frag h c hc
      · rw [if_neg h1] at hfrag
        by_cases h2 : isSepChar a
        · rw [if_pos h2] at hfrag
          rcases List.mem_cons.1 hfrag with h | h
          · subst h
            rcases List.mem_append.1 hc with h | h
            · rcases List.mem_append.1 h with h3 | h3
              · exact hcur c h3
              · exact hst c (List.mem_append.2 (Or.inl h3))
            · exact hst c (List.mem_append.2 (Or.inr h))
          · exact ih [] .plain (by simp) (by simp [stChars]) frag h c hc
        · rw [if_neg h2] at hfrag
          refine ih (cur ++ ws ++ [e, a]) .plain ?_ (by simp [stChars]) frag hfrag c hc
          intro d hd
          rcases List.mem_append.1 hd with h | h
          · rcases List.mem_append.1 h with h | h
            · exact hcur d h
            · exact hst d (List.mem_append.2 (Or.inl h))
          · rcases List.mem_cons.1 h with h | h
            · exact hst d (by simp [stChars, h])
            · rw [List.mem_singleton.1 h]
              simpa using h2
    | sepws =>
      rw [splitScan] at hfrag
      by_cases h1 : isWS a
      · rw [if_pos h1] at hfrag
        exact ih cur .sepws hcur (by simp [stChars]) frag hfrag c hc
      · rw [if_neg h1] at hfrag
        by_cases h2 : isSepChar a
        · rw [if_pos h2] at hfrag
          rcases List.mem_cons.1 hfrag with h | h
          · exact hcur c (h ▸ hc)
          · exact ih [] .plain (by simp) (by simp [stChars]) frag h c hc
        · rw [if_neg h2] at hfrag
          refine ih (cur ++ [a]) .plain ?_ (by simp [stChars]) frag hfrag c hc
          intro d hd
          rcases List.mem_append.1 hd with h | h
          · exact hcur d h
          · rw [List.mem_singleton.1 h]
            simpa using h2

/-- C5: `split_themes` returns `[]` on non-string input; every produced
theme is non-empty, already stripped, and free of separator characters;
and on the spec's examples it splits on the Portuguese conjunction and
on `, ; / &` preserving left-to-right order. -/
theorem C5_split_themes :
    (∀ v : PyVal, (∀ s, v ≠ .str s) → split_themes v = []) ∧
    (∀ (s x : String), x ∈ split_themes (.str s) →
      x ≠ "" ∧ pyStrip x = x ∧ ∀ c ∈ x.data, isSepChar c = false) ∧
    split_themes (.str "Geopolítica e Economia") = ["Geopolítica", "Economia"] ∧
    split_themes (.str "A, B; C/D & E") = ["A", "B", "C", "D", "E"] := by
  refine ⟨?_, ?_, by decide, by decide⟩
  · intro v h
    cases v with
    | str s => exact absurd rfl (h s)
    | int n => rfl
    | nan => rfl
  · intro s x hx
    simp only [split_themes, List.mem_map, List.mem_filter] at hx
    obtain ⟨cs, ⟨⟨raw, hraw, hstrip⟩, hne⟩, hmk⟩ := hx
    have hxdata : x.data = cs := by rw [← hmk]
    refine ⟨?_, ?_, ?_⟩
    · intro he
      refine (by simpa using hne : ¬ cs = []) ?_
      rw [← hxdata, he]
    · apply String.ext
      show stripChars x.data = x.data
      rw [hxdata, ← hstrip, stripChars_idem]
    · intro c hc
      rw [hxdata] at hc
      have hmem : c ∈ raw := by
        rw [← hstrip] at hc
        exact mem_stripChars hc
      exact splitScan_noSep s.data [] .plain (by simp) (by simp [stChars]) raw hraw c hmem

/-- C5 witness: the membership clause applied at the spec's example. -/
theorem C5_witness :
    ("Geopolítica" ∈ split_themes (.str "Geopolítica e Economia")) ∧
      ("Geopolítica" ≠ "" ∧ pyStrip "Geopolítica" = "Geopolítica" ∧
        ∀ c ∈ "Geopolítica".data, isSepChar c = false) :=
  ⟨by decide, C5_split_themes.2.1 "Geopolítica e Economia" "Geopolítica" (by decide)⟩

/-! ## Sort order facts -/

theorem pyLeB_refl (a : PyVal) : pyLeB a a = true := by
  cases a with
  | str s => simp [pyLeB]
  | int n => simp [pyLeB]
  | nan => rfl

theorem pyLeB_total (a b : PyVal) : pyLeB a b = true ∨ pyLeB b a = true := by
  cases a <;> cases b <;>
    first
      | exact Or.inl rfl
      | exact Or.inr rfl
      | (simp only [pyLeB, decide_eq_true_eq]; exact Int.le_total _ _)
      | (simp only [pyLeB, decide_eq_true_eq]; exact le_total _ _)

theorem pyLeB_trans (a b c : PyVal) (hab : pyLeB a b = true) (hbc : pyLeB b c = true) :
    pyLeB a c = true := by
  cases a <;> cases b <;> cases c <;>
      simp_all only [pyLeB, decide_eq_true_eq, Bool.false_eq_true]
  · exact le_trans hab hbc
  · exact le_trans hab hbc

theorem rowLe_iff (a b : Event) :
    rowLe a b ↔
      (a.year_key < b.year_key ∨ (a.year_key = b.year_key ∧ pyLeB a.title b.title = true)) := by
  simp [rowLe, rowLeB, Bool.or_eq_true, Bool.and_eq_true, decide_eq_true_eq]

@[instance] theorem isTotal_rowLe : IsTotal Event rowLe :=
  ⟨by
    intro a b
    rw [rowLe_iff, rowLe_iff]
    rcases Int.lt_trichotomy a.year_key b.year_key with h | h | h
    · exact Or.inl (Or.inl h)
    · rcases pyLeB_total a.title b.title with ht | ht
      · exact Or.inl (Or.inr ⟨h, ht⟩)
      · exact Or.inr (Or.inr ⟨h.symm, ht⟩)
    · exact Or.inr (Or.inl h)⟩

@[instance] theorem isTrans_rowLe : IsTrans Event rowLe :=
  ⟨by
    intro a b c hab hbc
    rw [rowLe_iff] at hab hbc ⊢
    rcases hab with h1 | ⟨h1, t1⟩
    · rcases hbc with h2 | ⟨h2, t2⟩
      · exact Or.inl (lt_trans h1 h2)
      · exact Or.inl (h2 ▸ h1)
    · rcases hbc with h2 | ⟨h2, t2⟩
      · exact Or.inl (h1 ▸ h2)
      · exact Or.inr ⟨h1.trans h2, pyLeB_trans _ _ _ t1 t2⟩⟩

theorem rowLe_of_key_eq {a b : Event} (h1 : a.year_key = b.year_key)
    (h2 : a.title = b.title) : rowLe a b :=
  (rowLe_iff a b).mpr (Or.inr ⟨h1, h2 ▸ pyLeB_refl _⟩)

/-! ## Stage membership facts -/

theorem mem_themeStage {df : List Event} {sel : List String} {r : Event} (hne : sel ≠ []) :
    r ∈ themeStage df sel ↔ r ∈ df ∧ ∃ t ∈ sel, t ∈ r.themes_list := by
  rw [themeStage, if_neg (by simpa using hne)]
  simp [List.mem_filter, List.any_eq_true]

theorem themeStage_nil (df : List Event) : themeStage df [] = df := by
  simp [themeStage]

theorem mem_textStage_sub {df : List Event} {q : String} {r : Event}
    (h : r ∈ textStage df q) : r ∈ df := by
  rw [textStage] at h
  split at h
  · exact h
  · exact (List.mem_filter.1 h).1

theorem mem_filter_df_theme {df : List Event} {sel : List String} {q : String} {r : Event}
    (h : r ∈ filter_df df sel q) : r ∈ themeStage df sel :=
  mem_textStage_sub ((List.mem_insertionSort rowLe).1 h)

/-! ## C2: filter output ordering -/

/-- C2: `filter_df` returns exactly the rows surviving its two filter
stages, re-sorted ascending on `(year_key, title)`: the output is a
permutation of the surviving rows, it is sorted for the `(year_key,
title)` key order, the sort is stable (rows with equal key keep their
original relative order), and every row with the sentinel year key
comes after every row with a parsed 4-digit year. -/
theorem C2_filter_df_sorted (df : List Event) (sel : List String) (q : String) :
    (filter_df df sel q).Perm (textStage (themeStage df sel) q) ∧
    List.Sorted rowLe (filter_df df sel q) ∧
    (∀ (y : Int) (tv : PyVal),
      (filter_df df sel q).filter
          (fun r => decide (r.year_key = y) && decide (r.title = tv)) =
        (textStage (themeStage df sel) q).filter
          (fun r => decide (r.year_key = y) && decide (r.title = tv))) ∧
    (∀ (i j : Nat) (hi : i < (filter_df df sel q).length)
      (hj : j < (filter_df df sel q).length),
      ((filter_df df sel q).get ⟨i, hi⟩).year_key ≤ 9999 →
      ((filter_df df sel q).get ⟨j, hj⟩).year_key = 10 ^ 9 → i < j) := by
  refine ⟨List.perm_insertionSort rowLe _, List.sorted_insertionSort rowLe _, ?_, ?_⟩
  · intro y tv
    set pre := textStage (themeStage df sel) q with hpre
    set p : Event → Bool := fun r => decide (r.year_key = y) && decide (r.title = tv) with hp
    have hpair : (pre.filter p).Pairwise rowLe := by
      apply List.pairwise_of_forall_mem_list
      intro a ha b hb
      have ha2 := (List.mem_filter.1 ha).2
      have hb2 := (List.mem_filter.1 hb).2
      rw [hp] at ha2 hb2
      simp only [Bool.and_eq_true, decide_eq_true_eq] at ha2 hb2
      exact rowLe_of_key_eq (ha2.1.trans hb2.1.symm) (ha2.2.trans hb2.2.symm)
    have hsub : List.Sublist (pre.filter p) (filter_df df sel q) :=
      List.sublist_insertionSort hpair (List.filter_sublist pre)
    have hsub2 : List.Sublist (pre.filter p) ((filter_df df sel q).filter p) := by
      have := hsub.filter p
      simpa [List.filter_filter] using this
    have hperm : ((filter_df df sel q).filter p).Perm (pre.filter p) :=
      (List.perm_insertionSort rowLe pre).filter p
    exact (hsub2.eq_of_length hperm.length_eq.symm).symm
  · intro i j hi hj h1 h2
    by_contra hcon
    push_neg at hcon
    have hne : j ≠ i := by
      intro he
      subst he
      rw [h2] at h1
      norm_num at h1
    have hji : j < i := lt_of_le_of_ne hcon hne
    have hsorted : List.Sorted rowLe (filter_df df sel q) :=
      List.sorted_insertionSort rowLe (textStage (themeStage df sel) q)
    have hs := hsorted.rel_get_of_lt
      (by exact hji : (⟨j, hj⟩ : Fin (filter_df df sel q).length) < ⟨i, hi⟩)
    rw [rowLe_iff] at hs
    rcases hs with h | ⟨h, _⟩
    · rw [h2] at h
      omega
    · rw [h2] at h
      omega

/-- C2 witness: on a concrete two-row table the dated row lands at
index 0 and the sentinel row at index 1. -/
theorem C2_witness :
    (((filter_df [sampleUndated, sampleDated] [] "").get ⟨0, by decide⟩).year_key ≤ 9999) ∧
    (((filter_df [sampleUndated, sampleDated] [] "").get ⟨1, by decide⟩).year_key = 10 ^ 9) ∧
    (0 : Nat) < 1 :=
  ⟨by decide, by decide,
    (C2_filter_df_sorted [sampleUndated, sampleDated] [] "").2.2.2 0 1 (by decide) (by decide)
      (by decide) (by decide)⟩

/-! ## C7: any-match theme filter -/

/-- C7: with a non-empty selection the theme stage keeps exactly the
rows whose `themes_list` intersects the selection (any-match); with an
empty selection the stage is the identity; and every row `filter_df`
returns under a non-empty selection has a selected theme. -/
theorem C7_theme_filter_any_match :
    (∀ (df : List Event) (sel : List String) (r : Event), sel ≠ [] →
      (r ∈ themeStage df sel ↔ r ∈ df ∧ ∃ t ∈ sel, t ∈ r.themes_list)) ∧
    (∀ df : List Event, themeStage df [] = df) ∧
    (∀ (df : List Event) (sel : List String) (q : String) (r : Event), sel ≠ [] →
      r ∈ filter_df df sel q → ∃ t ∈ sel, t ∈ r.themes_list) := by
  refine ⟨fun df sel r hne => mem_themeStage hne, themeStage_nil, ?_⟩
  intro df sel q r hne hmem
  exact ((mem_themeStage hne).1 (mem_filter_df_theme hmem)).2

/-- C7 witness: the row with themes `["A", "B"]` is kept when the
selection is `{"B", "C"}`. -/
theorem C7_witness :
    (["B", "C"] : List String) ≠ [] ∧ sampleAB ∈ themeStage [sampleAB] ["B", "C"] :=
  ⟨by decide,
    ((C7_theme_filter_any_match.1 [sampleAB] ["B", "C"] sampleAB (by decide)).mpr
      ⟨by decide, by decide⟩)⟩

/-! ## C10: theme matching is literal string equality -/

/-- C10: theme-selection matching is case-sensitive literal string
equality between a selected theme and an element of `themes_list`; in
particular a selection differing only in letter case from a row's theme
excludes the row. -/
theorem C10_theme_match_case_sensitive :
    (∀ (df : List Event) (sel : List String) (r : Event), sel ≠ [] →
      (r ∈ themeStage df sel ↔ r ∈ df ∧ ∃ s, s ∈ sel ∧ s ∈ r.themes_list)) ∧
    themeStage [sampleGeo] ["geopolítica"] = [] ∧
    themeStage [sampleGeo] ["Geopolítica"] = [sampleGeo] := by
  refine ⟨?_, by decide, by decide⟩
  intro df sel r hne
  constructor
  · intro hm
    have h2 := (mem_themeStage hne).1 hm
    exact ⟨h2.1, h2.2⟩
  · intro hm
    exact (mem_themeStage hne).2 ⟨hm.1, hm.2⟩

/-- C10 witness: the membership clause applied at a selection that
differs only in case from the row's theme. -/
theorem C10_witness :
    (["geopolítica"] : List String) ≠ [] ∧
      ¬ sampleGeo ∈ themeStage [sampleGeo] ["geopolítica"] :=
  ⟨by decide, fun h =>
    absurd ((C10_theme_match_case_sensitive.1 [sampleGeo] ["geopolítica"] sampleGeo
      (by decide)).1 h).2 (by decide)⟩

/-! ## C3: text filter -/

theorem reMatchAt_no_dot (pat : List Char) (h : ∀ c ∈ pat, c ≠ '.') :
    ∀ l : List Char, reMatchAt pat l = (pat == l.take pat.length) := by
  induction pat with
  | nil => intro l; simp [reMatchAt]
  | cons p ps ih =>
    intro l
    cases l with
    | nil => simp [reMatchAt]
    | cons d ds =>
      have hp : p ≠ '.' := h p (List.mem_cons_self p ps)
      rw [reMatchAt, if_neg hp, ih (fun c hc => h c (List.mem_cons_of_mem _ hc)) ds]
      simp only [List.length_cons, List.take_succ_cons, List.cons_beq_cons]

theorem pyContains_eq_substrB (pat s : String) (h : ∀ c ∈ pat.data, c ≠ '.') :
    pyContains pat s = substrB pat.data s.data := by
  have main : ∀ l : List Char,
      ((List.range (l.length + 1)).any fun i => reMatchAt pat.data (l.drop i)) =
        substrB pat.data l := by
    intro l
    induction l with
    | nil =>
      cases hp : pat.data with
      | nil => simp [reMatchAt, substrB, hp, List.range_succ, List.range_zero]
      | cons p ps => simp [reMatchAt, substrB, hp, List.range_succ, List.range_zero]
    | cons c t ih =>
      rw [List.length_cons, List.range_succ_eq_map, List.any_cons, List.any_map]
      rw [Function.comp_def]
      simp only [List.drop_succ_cons, List.drop_zero]
      rw [ih, reMatchAt_no_dot pat.data h (c :: t), substrB]
  exact main s.data

/-- `substrB` agrees with the prefix/suffix decomposition reading of
"occurs as a literal substring". -/
theorem substrB_iff_decomp (needle : List Char) :
    ∀ hay : List Char, substrB needle hay = true ↔ ∃ pre post, hay = pre ++ needle ++ post := by
  intro hay
  induction hay with
  | nil =>
    rw [substrB]
    constructor
    · intro h
      have hn : needle = [] := by simpa using h
      exact ⟨[], [], by simp [hn]⟩
    · rintro ⟨pre, post, h⟩
      have h2 := h.symm
      simp only [List.append_eq_nil] at h2
      simp [h2.1.2]
  | cons c t ih =>
    rw [substrB, Bool.or_eq_true]
    constructor
    · rintro (hbeq | hrec)
      · have heq : needle = (c :: t).take needle.length := eq_of_beq hbeq
        refine ⟨[], (c :: t).drop needle.length, ?_⟩
        rw [List.nil_append]
        nth_rewrite 1 [heq]
        exact (List.take_append_drop _ _).symm
      · obtain ⟨pre, post, h⟩ := ih.mp hrec
        refine ⟨c :: pre, post, ?_⟩
        rw [List.cons_append, List.cons_append, ← h]
    · rintro ⟨pre, post, h⟩
      cases pre with
      | nil =>
        left
        rw [List.nil_append] at h
        rw [h, List.take_left]
        simp
      | cons p pre2 =>
        right
        rw [List.cons_append, List.cons_append] at h
        injection h with h1 h2
        exact ih.mpr ⟨pre2, post, h2⟩

/-- The spec-side literal-substring relation coincides with the
executable `substrB`. -/
theorem isLiteralSubstr_iff (needle hay : String) :
    IsLiteralSubstr needle hay ↔ substrB needle.data hay.data = true := by
  rw [IsLiteralSubstr]
  exact (substrB_iff_decomp needle.data hay.data).symm

/-- C3 (counterexample): the query `"."` is non-empty after trimming
and occurs as a literal substring of none of the four (lower-cased)
fields of `sampleAbc` — no prefix/suffix decomposition exists — yet
`filter_df` keeps the row: `str.contains` treats the query as a
regular expression (`.` matches any character), not as a literal
substring. -/
theorem C3_counterexample :
    pyStrip "." ≠ "" ∧
    filter_df [sampleAbc] [] "." = [sampleAbc] ∧
    ¬ IsLiteralSubstr (pyLower (pyStrip ".")) (pyLower (pyStr sampleAbc.title)) ∧
    ¬ IsLiteralSubstr (pyLower (pyStrip ".")) (pyLower (pyStr sampleAbc.description)) ∧
    ¬ IsLiteralSubstr (pyLower (pyStrip ".")) (pyLower (pyStr sampleAbc.period)) ∧
    ¬ IsLiteralSubstr (pyLower (pyStrip ".")) (pyLower (pyStr sampleAbc.theme)) := by
  refine ⟨by decide, by decide, ?_, ?_, ?_, ?_⟩ <;>
    exact fun h => absurd ((isLiteralSubstr_iff _ _).mp h) (by decide)

/-- C3 (amended): for every query that is non-empty after trimming and
whose lower-cased trimmed form contains no regex metacharacter, the
text stage keeps exactly — as a list, multiplicities and order
included — the rows where the lower-cased trimmed query occurs as a
literal substring of the lower-cased string form of at least one of
title, description, period, theme (OR across the fields); consequently
a row survives `filter_df` exactly when it passes the theme stage and
has such a field.  (For queries containing metacharacters the code
performs regex matching instead.) -/
theorem C3_text_filter_literal (df : List Event) (sel : List String) (query : String)
    (hq : pyStrip query ≠ "")
    (hord : ∀ c ∈ (pyLower (pyStrip query)).data, regexOrdinary c = true) :
    textStage (themeStage df sel) query =
      (themeStage df sel).filter (fun r =>
        substrB (pyLower (pyStrip query)).data (pyLower (pyStr r.title)).data ||
        substrB (pyLower (pyStrip query)).data (pyLower (pyStr r.description)).data ||
        substrB (pyLower (pyStrip query)).data (pyLower (pyStr r.period)).data ||
        substrB (pyLower (pyStrip query)).data (pyLower (pyStr r.theme)).data) ∧
    (∀ r : Event, r ∈ filter_df df sel query ↔
      r ∈ themeStage df sel ∧
        (IsLiteralSubstr (pyLower (pyStrip query)) (pyLower (pyStr r.title)) ∨
         IsLiteralSubstr (pyLower (pyStrip query)) (pyLower (pyStr r.description)) ∨
         IsLiteralSubstr (pyLower (pyStrip query)) (pyLower (pyStr r.period)) ∨
         IsLiteralSubstr (pyLower (pyStrip query)) (pyLower (pyStr r.theme)))) := by
  have hq0 : query ≠ "" := by
    intro he
    apply hq
    rw [he]
    rfl
  have hdot : ∀ c ∈ (pyLower (pyStrip query)).data, c ≠ '.' := by
    intro c hc heq
    have h2 := hord c hc
    rw [heq] at h2
    exact absurd h2 (by decide)
  have hfun : (fun r : Event =>
      pyContains (pyLower (pyStrip query)) (pyLower (pyStr r.title)) ||
      pyContains (pyLower (pyStrip query)) (pyLower (pyStr r.description)) ||
      pyContains (pyLower (pyStrip query)) (pyLower (pyStr r.period)) ||
      pyContains (pyLower (pyStrip query)) (pyLower (pyStr r.theme))) =
      (fun r : Event =>
        substrB (pyLower (pyStrip query)).data (pyLower (pyStr r.title)).data ||
        substrB (pyLower (pyStrip query)).data (pyLower (pyStr r.description)).data ||
        substrB (pyLower (pyStrip query)).data (pyLower (pyStr r.period)).data ||
        substrB (pyLower (pyStrip query)).data (pyLower (pyStr r.theme)).data) := by
    funext r
    rw [pyContains_eq_substrB _ _ hdot, pyContains_eq_substrB _ _ hdot,
      pyContains_eq_substrB _ _ hdot, pyContains_eq_substrB _ _ hdot]
  have hstage : textStage (themeStage df sel) query =
      (themeStage df sel).filter (fun r =>
        substrB (pyLower (pyStrip query)).data (pyLower (pyStr r.title)).data ||
        substrB (pyLower (pyStrip query)).data (pyLower (pyStr r.description)).data ||
        substrB (pyLower (pyStrip query)).data (pyLower (pyStr r.period)).data ||
        substrB (pyLower (pyStrip query)).data (pyLower (pyStr r.theme)).data) := by
    rw [textStage, if_neg hq0]
    show (themeStage df sel).filter (fun r =>
        pyContains (pyLower (pyStrip query)) (pyLower (pyStr r.title)) ||
        pyContains (pyLower (pyStrip query)) (pyLower (pyStr r.description)) ||
        pyContains (pyLower (pyStrip query)) (pyLower (pyStr r.period)) ||
        pyContains (pyLower (pyStrip query)) (pyLower (pyStr r.theme))) = _
    rw [hfun]
  refine ⟨hstage, ?_⟩
  intro r
  have hmem : r ∈ filter_df df sel query ↔ r ∈ textStage (themeStage df sel) query :=
    List.mem_insertionSort rowLe
  rw [hmem, hstage, List.mem_filter]
  simp only [Bool.or_eq_true, isLiteralSubstr_iff]
  tauto

/-- C3 witness: the spec's end-to-end scenario — the case-insensitive
query `"GUERRA"` keeps the row titled "Segunda Guerra Mundial", with
the explicit decomposition "segunda " ++ "guerra" ++ " mundial". -/
theorem C3_witness :
    pyStrip "GUERRA" ≠ "" ∧ sampleGuerra ∈ filter_df [sampleGuerra] [] "GUERRA" :=
  ⟨by decide,
    ((C3_text_filter_literal [sampleGuerra] [] "GUERRA" (by decide) (by decide)).2
      sampleGuerra).mpr
      ⟨by decide, Or.inl ⟨"segunda ".data, " mundial".data, by decide⟩⟩⟩

/-! ## C6: column normalization -/

/-- C6 (counterexample): on a table whose only header is `title`, the
first logical column `period` does not resolve, so pandas establishes
the output index only at the `title` assignment and NaN-backfills the
previously assigned `period` column: the code yields NaN there, not the
empty string the claim promises. -/
theorem C6_counterexample :
    normalize_columns ⟨["title"], [[PyVal.str "X"]]⟩ =
      ⟨REQUIRED_COLS, [[PyVal.nan, PyVal.str "X", PyVal.str "", PyVal.str ""]]⟩ ∧
    specNormalize ⟨["title"], [[PyVal.str "X"]]⟩ =
      ⟨REQUIRED_COLS, [[PyVal.str "", PyVal.str "X", PyVal.str "", PyVal.str ""]]⟩ ∧
    normalize_columns ⟨["title"], [[PyVal.str "X"]]⟩ ≠
      specNormalize ⟨["title"], [[PyVal.str "X"]]⟩ := by
  refine ⟨by decide, by decide, by decide⟩

/-- C6 (amended): whenever the first logical column `period` itself
resolves to a source column (by the exact or the substring rule),
`normalize_columns` behaves exactly as the claim states: four logical
columns in order, values by exact case-insensitive match, else first
substring match, else a column of empty strings, row count preserved,
and no error for missing columns.  (When `period` does not resolve,
pandas index alignment NaN-fills the columns assigned before the first
resolved one — and returns zero rows when nothing resolves.) -/
theorem C6_normalize_columns (t : RawTable)
    (h : (resolveCol t.headers "period").isSome = true) :
    normalize_columns t = specNormalize t := by
  obtain ⟨i0, hi0⟩ : ∃ i, resolveCol t.headers "period" = some i :=
    Option.isSome_iff_exists.mp h
  unfold normalize_columns specNormalize
  simp only [REQUIRED_COLS, List.map_cons, List.map_nil, hi0, List.all_cons,
    Option.isNone_some, Bool.false_and, if_false, List.findIdx_cons, Option.isSome_some,
    cond_true, List.enum, List.enumFrom]
  rfl

/-- C6 witness: a concrete header set where `period` resolves by the
exact rule. -/
theorem C6_witness :
    (resolveCol ["Period ", "TITLE", "junk"] "period").isSome = true ∧
      normalize_columns ⟨["Period ", "TITLE", "junk"], [[.str "a", .str "b", .str "c"]]⟩ =
        specNormalize ⟨["Period ", "TITLE", "junk"], [[.str "a", .str "b", .str "c"]]⟩ :=
  ⟨by decide, C6_normalize_columns ⟨["Period ", "TITLE", "junk"],
    [[.str "a", .str "b", .str "c"]]⟩ (by decide)⟩

/-! ## C9: normalization is idempotent on normalized tables -/

theorem getD_four_eq {row : List PyVal} (h4 : row.length = 4) :
    [row.getD 0 .nan, row.getD 1 .nan, row.getD 2 .nan, row.getD 3 .nan] = row := by
  cases row with
  | nil => simp at h4
  | cons a t1 =>
    cases t1 with
    | nil => simp at h4
    | cons b t2 =>
      cases t2 with
      | nil => simp at h4
      | cons c t3 =>
        cases t3 with
        | nil => simp at h4
        | cons d t4 =>
          cases t4 with
          | nil => rfl
          | cons e t5 => simp [List.length_cons] at h4

/-- C9: `normalize_columns` is idempotent — a table already carrying
exactly the four logical columns in order comes back unchanged. -/
theorem C9_normalize_idempotent (t : RawTable) (hh : t.headers = REQUIRED_COLS)
    (hr : ∀ row ∈ t.rows, row.length = 4) : normalize_columns t = t := by
  obtain ⟨headers, rows⟩ := t
  simp only at hh hr
  subst hh
  have base : normalize_columns ⟨REQUIRED_COLS, rows⟩ =
      ⟨REQUIRED_COLS, rows.map (fun row =>
        [row.getD 0 .nan, row.getD 1 .nan, row.getD 2 .nan, row.getD 3 .nan])⟩ := rfl
  rw [base]
  have main : ∀ rs : List (List PyVal), (∀ row ∈ rs, row.length = 4) →
      rs.map (fun row =>
        [row.getD 0 .nan, row.getD 1 .nan, row.getD 2 .nan, row.getD 3 .nan]) = rs := by
    intro rs hrs
    induction rs with
    | nil => rfl
    | cons r rt ih =>
      rw [List.map_cons, getD_four_eq (hrs r (List.mem_cons_self r rt)),
        ih (fun row hrow => hrs row (List.mem_cons_of_mem r hrow))]
  rw [main rows hr]

/-- C9 witness: a concrete already-normalized one-row table. -/
theorem C9_witness :
    (RawTable.mk REQUIRED_COLS [[PyVal.str "a", .str "b", .str "c", .str "d"]]).headers =
      REQUIRED_COLS ∧
    normalize_columns ⟨REQUIRED_COLS, [[PyVal.str "a", .str "b", .str "c", .str "d"]]⟩ =
      ⟨REQUIRED_COLS, [[PyVal.str "a", .str "b", .str "c", .str "d"]]⟩ :=
  ⟨rfl, C9_normalize_idempotent ⟨REQUIRED_COLS, [[PyVal.str "a", .str "b", .str "c", .str "d"]]⟩
    rfl (by decide)⟩

/-! ## C8: CSV round trip — tokenizer steps -/

theorem mkData (s : String) : (⟨s.data⟩ : String) = s := by
  cases s
  rfl

theorem splitCSV_s0_quote (curF : List Char) (curRow : List String) (rest : List Char) :
    splitCSV .s0 curF curRow ('"' :: rest) = splitCSV .sq curF curRow rest := rfl

theorem splitCSV_s0_comma (curF : List Char) (curRow : List String) (rest : List Char) :
    splitCSV .s0 curF curRow (',' :: rest) =
      splitCSV .s0 [] (curRow ++ [(⟨curF⟩ : String)]) rest := rfl

theorem splitCSV_s0_nl (curF : List Char) (curRow : List String) (rest : List Char) :
    splitCSV .s0 curF curRow ('\n' :: rest) =
      (curRow ++ [(⟨curF⟩ : String)]) :: splitCSV .s0 [] [] rest := rfl

theorem splitCSV_s0_other (c : Char) (curF : List Char) (curRow : List String)
    (rest : List Char) (h1 : c ≠ '"') (h2 : c ≠ ',') (h3 : c ≠ '\n') :
    splitCSV .s0 curF curRow (c :: rest) = splitCSV .su (curF ++ [c]) curRow rest := by
  simp only [splitCSV, if_neg h1, if_neg h2, if_neg h3]

theorem splitCSV_su_comma (curF : List Char) (curRow : List String) (rest : List Char) :
    splitCSV .su curF curRow (',' :: rest) =
      splitCSV .s0 [] (curRow ++ [(⟨curF⟩ : String)]) rest := rfl

theorem splitCSV_su_nl (curF : List Char) (curRow : List String) (rest : List Char) :
    splitCSV .su curF curRow ('\n' :: rest) =
      (curRow ++ [(⟨curF⟩ : String)]) :: splitCSV .s0 [] [] rest := rfl

theorem splitCSV_su_other (c : Char) (curF : List Char) (curRow : List String)
    (rest : List Char) (h2 : c ≠ ',') (h3 : c ≠ '\n') :
    splitCSV .su curF curRow (c :: rest) = splitCSV .su (curF ++ [c]) curRow rest := by
  simp only [splitCSV, if_neg h2, if_neg h3]

theorem splitCSV_sq_quote (curF : List Char) (curRow : List String) (rest : List Char) :
    splitCSV .sq curF curRow ('"' :: rest) = splitCSV .se curF curRow rest := rfl

theorem splitCSV_sq_other (c : Char) (curF : List Char) (curRow : List String)
    (rest : List Char) (h : c ≠ '"') :
    splitCSV .sq curF curRow (c :: rest) = splitCSV .sq (curF ++ [c]) curRow rest := by
  simp only [splitCSV, if_neg h]

theorem splitCSV_se_quote (curF : List Char) (curRow : List String) (rest : List Char) :
    splitCSV .se curF curRow ('"' :: rest) = splitCSV .sq (curF ++ ['"']) curRow rest := rfl

theorem splitCSV_se_comma (curF : List Char) (curRow : List String) (rest : List Char) :
    splitCSV .se curF curRow (',' :: rest) =
      splitCSV .s0 [] (curRow ++ [(⟨curF⟩ : String)]) rest := rfl

theorem splitCSV_se_nl (curF : List Char) (curRow : List String) (rest : List Char) :
    splitCSV .se curF curRow ('\n' :: rest) =
      (curRow ++ [(⟨curF⟩ : String)]) :: splitCSV .s0 [] [] rest := rfl

/-- Consuming a run of ordinary characters inside an unquoted field. -/
theorem splitCSV_su_span (cs : List Char) :
    ∀ (curF : List Char) (curRow : List String) (tail : List Char),
      (∀ c ∈ cs, c ≠ ',' ∧ c ≠ '\n') →
      splitCSV .su curF curRow (cs ++ tail) = splitCSV .su (curF ++ cs) curRow tail := by
  induction cs with
  | nil =>
    intro curF curRow tail _
    simp
  | cons c cs2 ih =>
    intro curF curRow tail h
    have hc := h c (List.mem_cons_self c cs2)
    rw [List.cons_append, splitCSV_su_other c _ _ _ hc.1 hc.2,
      ih (curF ++ [c]) curRow tail (fun d hd => h d (List.mem_cons_of_mem c hd)),
      List.append_assoc]
    rfl

/-- Consuming an escaped field body inside a quoted field, up to and
including the closing quote. -/
theorem splitCSV_sq_span (cs : List Char) :
    ∀ (curF : List Char) (curRow : List String) (tail : List Char),
      splitCSV .sq curF curRow (escapeQuotes cs ++ '"' :: tail) =
        splitCSV .se (curF ++ cs) curRow tail := by
  induction cs with
  | nil =>
    intro curF curRow tail
    rw [show escapeQuotes [] = [] from rfl, List.nil_append, splitCSV_sq_quote,
      List.append_nil]
  | cons c cs2 ih =>
    intro curF curRow tail
    by_cases hc : c = '"'
    · subst hc
      rw [show escapeQuotes ('"' :: cs2) = '"' :: '"' :: escapeQuotes cs2 from rfl,
        List.cons_append, List.cons_append, splitCSV_sq_quote, splitCSV_se_quote, ih,
        List.append_assoc]
      rfl
    · rw [show escapeQuotes (c :: cs2) = c :: escapeQuotes cs2 by simp [escapeQuotes, hc],
        List.cons_append, splitCSV_sq_other c _ _ _ hc, ih, List.append_assoc]
      rfl

/-- A serialized field followed by a comma: the field is flushed and
scanning resumes at field start. -/
theorem splitCSV_field_comma (s : String) (curRow : List String) (tail : List Char) :
    splitCSV .s0 [] curRow (writeField s ++ ',' :: tail) =
      splitCSV .s0 [] (curRow ++ [s]) tail := by
  by_cases hq : needsQuote s
  · rw [writeField, if_pos hq, List.cons_append, splitCSV_s0_quote, List.append_assoc,
      show ['"'] ++ (',' :: tail) = '"' :: ',' :: tail from rfl, splitCSV_sq_span,
      List.nil_append, splitCSV_se_comma, mkData]
  · have hns : ∀ c ∈ s.data, ¬(c = ',' ∨ c = '"' ∨ c = '\n' ∨ c = '\x0d') := by
      intro c hc hor
      apply hq
      simp only [needsQuote, List.any_eq_true]
      refine ⟨c, hc, ?_⟩
      simp only [Bool.or_eq_true, decide_eq_true_eq]
      tauto
    rw [writeField, if_neg hq]
    cases hd : s.data with
    | nil =>
      rw [List.nil_append, splitCSV_s0_comma]
      have : (⟨([] : List Char)⟩ : String) = s := by
        rw [← hd, mkData]
      rw [this]
    | cons c cs2 =>
      have hc := hns c (by rw [hd]; exact List.mem_cons_self c cs2)
      push_neg at hc
      rw [List.cons_append, splitCSV_s0_other c _ _ _ hc.2.1 hc.1 hc.2.2.1,
        List.nil_append, splitCSV_su_span cs2 [c] curRow (',' :: tail)
          (fun d hd2 => by
            have := hns d (by rw [hd]; exact List.mem_cons_of_mem c hd2)
            push_neg at this
            exact ⟨this.1, this.2.2.1⟩),
        show ([c] ++ cs2) = c :: cs2 from rfl, splitCSV_su_comma]
      have : (⟨c :: cs2⟩ : String) = s := by
        rw [← hd, mkData]
      rw [this]

/-- A serialized field followed by a newline: the field and the record
are flushed. -/
theorem splitCSV_field_nl (s : String) (curRow : List String) (tail : List Char) :
    splitCSV .s0 [] curRow (writeField s ++ '\n' :: tail) =
      (curRow ++ [s]) :: splitCSV .s0 [] [] tail := by
  by_cases hq : needsQuote s
  · rw [writeField, if_pos hq, List.cons_append, splitCSV_s0_quote, List.append_assoc,
      show ['"'] ++ ('\n' :: tail) = '"' :: '\n' :: tail from rfl, splitCSV_sq_span,
      List.nil_append, splitCSV_se_nl, mkData]
  · have hns : ∀ c ∈ s.data, ¬(c = ',' ∨ c = '"' ∨ c = '\n' ∨ c = '\x0d') := by
      intro c hc hor
      apply hq
      simp only [needsQuote, List.any_eq_true]
      refine ⟨c, hc, ?_⟩
      simp only [Bool.or_eq_true, decide_eq_true_eq]
      tauto
    rw [writeField, if_neg hq]
    cases hd : s.data with
    | nil =>
      rw [List.nil_append, splitCSV_s0_nl]
      have : (⟨([] : List Char)⟩ : String) = s := by
        rw [← hd, mkData]
      rw [this]
    | cons c cs2 =>
      have hc := hns c (by rw [hd]; exact List.mem_cons_self c cs2)
      push_neg at hc
      rw [List.cons_append, splitCSV_s0_other c _ _ _ hc.2.1 hc.1 hc.2.2.1,
        List.nil_append, splitCSV_su_span cs2 [c] curRow ('\n' :: tail)
          (fun d hd2 => by
            have := hns d (by rw [hd]; exact List.mem_cons_of_mem c hd2)
            push_neg at this
            exact ⟨this.1, this.2.2.1⟩),
        show ([c] ++ cs2) = c :: cs2 from rfl, splitCSV_su_nl]
      have : (⟨c :: cs2⟩ : String) = s := by
        rw [← hd, mkData]
      rw [this]

/-- A serialized record: all its fields are flushed as one row. -/
theorem splitCSV_row (cells : List String) :
    ∀ (curRow : List String) (tail : List Char), cells ≠ [] →
      splitCSV .s0 [] curRow (writeRowCSV cells ++ tail) =
        (curRow ++ cells) :: splitCSV .s0 [] [] tail := by
  induction cells with
  | nil => intro _ _ h; exact absurd rfl h
  | cons c cs ih =>
    intro curRow tail _
    cases cs with
    | nil =>
      rw [show writeRowCSV [c] = writeField c ++ ['\n'] from rfl, List.append_assoc,
        show (['\n'] ++ tail) = '\n' :: tail from rfl, splitCSV_field_nl]
    | cons c2 cs2 =>
      rw [show writeRowCSV (c :: c2 :: cs2) = writeField c ++ ',' :: writeRowCSV (c2 :: cs2)
          from rfl, List.append_assoc,
        show ((',' :: writeRowCSV (c2 :: cs2)) ++ tail) =
          ',' :: (writeRowCSV (c2 :: cs2) ++ tail) from rfl,
        splitCSV_field_comma, ih (curRow ++ [c]) tail (by simp), List.append_assoc]
      rfl

/-- A serialized table tokenizes back to its rows. -/
theorem splitCSV_rows (rows : List (List String)) (h : ∀ r ∈ rows, r ≠ []) :
    splitCSV .s0 [] [] ((rows.map writeRowCSV).flatten) = rows := by
  induction rows with
  | nil => rfl
  | cons r rt ih =>
    rw [List.map_cons, List.flatten_cons,
      splitCSV_row r [] _ (h r (List.mem_cons_self r rt)),
      ih (fun x hx => h x (List.mem_cons_of_mem r hx)), List.nil_append]

/-- The export of a filtered table tokenizes back to the header row
followed by one 4-field record per event. -/
theorem splitCSV_csv_bytes (tbl : List Event) :
    splitCSV .s0 [] [] (csv_bytes tbl).data = REQUIRED_COLS :: tbl.map eventCells := by
  have h1 : (csv_bytes tbl).data =
      (((REQUIRED_COLS :: tbl.map eventCells).map writeRowCSV).flatten) := by
    simp [csv_bytes, List.flatten_cons, List.map_map, Function.comp_def]
  rw [h1]
  apply splitCSV_rows
  intro r hr
  rcases List.mem_cons.1 hr with h | h
  · rw [h, REQUIRED_COLS]
    simp
  · obtain ⟨e, _, he⟩ := List.mem_map.1 h
    rw [← he, eventCells]
    simp

/-! ## C8: CSV round trip — column re-inference -/

theorem map_eq_self_of_mem {α : Type} {f : α → α} :
    ∀ {l : List α}, (∀ a ∈ l, f a = a) → l.map f = l := by
  intro l
  induction l with
  | nil => intro _; rfl
  | cons a t ih =>
    intro h
    rw [List.map_cons, h a (List.mem_cons_self a t), ih (fun x hx => h x (List.mem_cons_of_mem a hx))]

theorem mem_of_head?_eq {α : Type} {l : List α} {x : α} (h : l.head? = some x) : x ∈ l := by
  cases l with
  | nil => simp at h
  | cons c t =>
    rw [List.head?_cons, Option.some_inj] at h
    rw [← h]
    exact List.mem_cons_self c t

theorem stripChars_no_ws {l : List Char} (h : ∀ c ∈ l, isWS c = false) : stripChars l = l := by
  unfold stripChars
  rw [dropWhile_eq_self_of_head l (fun x hx => h x (mem_of_head?_eq hx)),
    dropWhile_eq_self_of_head l.reverse
      (fun x hx => h x (List.mem_reverse.1 (mem_of_head?_eq hx))),
    List.reverse_reverse]

theorem isDigitA_not_ws {c : Char} (h : isDigitA c = true) : isWS c = false := by
  simp only [isDigitA, Bool.and_eq_true, decide_eq_true_eq] at h
  by_contra hws
  rw [Bool.not_eq_false] at hws
  simp only [isWS, Bool.or_eq_true, decide_eq_true_eq] at hws
  rcases hws with ((((h2 | h2) | h2) | h2) | h2) | h2 <;> subst h2 <;>
    exact absurd h.1 (by decide)

theorem takeWhile_all {p : Char → Bool} :
    ∀ {l : List Char}, (∀ c ∈ l, p c = true) → l.takeWhile p = l := by
  intro l
  induction l with
  | nil => intro _; rfl
  | cons c t ih =>
    intro h
    rw [List.takeWhile_cons, h c (List.mem_cons_self c t), if_pos rfl,
      ih (fun x hx => h x (List.mem_cons_of_mem c hx))]

theorem dropWhile_all {p : Char → Bool} :
    ∀ {l : List Char}, (∀ c ∈ l, p c = true) → l.dropWhile p = [] := by
  intro l
  induction l with
  | nil => intro _; rfl
  | cons c t ih =>
    intro h
    rw [List.dropWhile_cons, if_pos (h c (List.mem_cons_self c t))]
    exact ih (fun x hx => h x (List.mem_cons_of_mem c hx))

/-- An integer-literal field is numeric-shaped, hence not a safe
string. -/
theorem isIntLit_numericLike (s : String) (h : isIntLit s = true) : numericLike s = true := by
  rw [isIntLit] at h
  cases hd : s.data with
  | nil => rw [hd] at h; simp at h
  | cons c rest =>
    rw [hd] at h
    simp only [Bool.and_eq_true] at h
    by_cases hsign : (c = '-' || c = '+') = true
    · rw [if_pos hsign] at h
      have hnws : ∀ x ∈ s.data, isWS x = false := by
        intro x hx
        rw [hd] at hx
        rcases List.mem_cons.1 hx with h2 | h2
        · subst h2
          have hsign2 := hsign
          simp only [Bool.or_eq_true, decide_eq_true_eq] at hsign2
          rcases hsign2 with h3 | h3 <;> subst h3 <;> decide
        · exact isDigitA_not_ws (List.all_eq_true.1 h.2 x h2)
      rw [numericLike, stripChars_no_ws hnws, hd, numericCore]
      simp only [if_pos hsign]
      rw [takeWhile_all (List.all_eq_true.1 h.2), dropWhile_all (List.all_eq_true.1 h.2)]
      simpa using h.1
    · rw [if_neg hsign] at h
      have hnws : ∀ x ∈ s.data, isWS x = false := by
        intro x hx
        rw [hd] at hx
        exact isDigitA_not_ws (List.all_eq_true.1 h.2 x hx)
      rw [numericLike, stripChars_no_ws hnws, hd, numericCore]
      simp only [if_neg hsign]
      rw [takeWhile_all (List.all_eq_true.1 h.2), dropWhile_all (List.all_eq_true.1 h.2)]
      simp

/-- Re-inference of a column whose cells are all missing or safe
strings reads back exactly the original cells. -/
theorem inferColumn_safe (cells : List PyVal) (hs : ∀ v ∈ cells, safeCell v = true) :
    inferColumn (cells.map cellRepr) = cells := by
  have hcond : (!((cells.map cellRepr).filter (fun s => !isNAText s)).isEmpty &&
      ((cells.map cellRepr).filter (fun s => !isNAText s)).all isIntLit) = false := by
    cases hne : (cells.map cellRepr).filter (fun s => !isNAText s) with
    | nil => rfl
    | cons s rest =>
      have hmem : s ∈ (cells.map cellRepr).filter (fun s => !isNAText s) := by
        rw [hne]
        exact List.mem_cons_self s rest
      have h1 := List.mem_filter.1 hmem
      obtain ⟨v, hv, hrepr⟩ := List.mem_map.1 h1.1
      have hsv := hs v hv
      cases v with
      | nan =>
        rw [← hrepr] at h1
        simp [cellRepr, isNAText, naTokens] at h1
      | int n => simp [safeCell] at hsv
      | str s0 =>
        have hrepr2 : s = s0 := by rw [← hrepr]; rfl
        subst hrepr2
        have hsafe : safeStr s = true := by simpa [safeCell] using hsv
        have hnl : numericLike s = false := by
          simp only [safeStr, Bool.and_eq_true, Bool.not_eq_true'] at hsafe
          exact hsafe.1.2
        have hil : isIntLit s = false := by
          by_contra h2
          rw [Bool.not_eq_false] at h2
          rw [isIntLit_numericLike s h2] at hnl
          exact absurd hnl (by decide)
        rw [List.all_cons, hil]
        simp
  rw [inferColumn, hcond]
  simp only [Bool.false_eq_true, if_false]
  rw [List.map_map]
  apply map_eq_self_of_mem
  intro v hv
  have hsv := hs v hv
  simp only [Function.comp_apply]
  cases v with
  | nan => simp [cellRepr, isNAText, naTokens]
  | int n => simp [safeCell] at hsv
  | str s0 =>
    have hsafe : safeStr s0 = true := by simpa [safeCell] using hsv
    have hna : isNAText s0 = false := by
      simp only [safeStr, Bool.and_eq_true, Bool.not_eq_true'] at hsafe
      exact hsafe.1.1
    simp [cellRepr, hna]

theorem getD_map_lt {α β : Type} (f : α → β) (l : List α) (i : Nat) (d : β)
    (h : i < l.length) : (l.map f).getD i d = f (l.get ⟨i, h⟩) := by
  rw [List.getD_eq_getElem?_getD, List.getElem?_map, List.getElem?_eq_getElem h]
  rfl

/-- `normalize_columns` on a table already headed by the four logical
columns selects the four cells positionally. -/
theorem normalize_columns_req (rows : List (List PyVal)) :
    normalize_columns ⟨REQUIRED_COLS, rows⟩ =
      ⟨REQUIRED_COLS, rows.map (fun row =>
        [row.getD 0 .nan, row.getD 1 .nan, row.getD 2 .nan, row.getD 3 .nan])⟩ := rfl

theorem mem_themeStage_sub {df : List Event} {sel : List String} {r : Event}
    (h : r ∈ themeStage df sel) : r ∈ df := by
  rw [themeStage] at h
  split at h
  · exact h
  · exact (List.mem_filter.1 h).1

theorem mem_filter_df_sub {df : List Event} {sel : List String} {q : String} {r : Event}
    (h : r ∈ filter_df df sel q) : r ∈ df :=
  mem_themeStage_sub (mem_filter_df_theme h)

/-- The CSV round trip preserves `year_key` and `themes_list` for every
derived table whose period and theme cells are missing or safe
strings. -/
theorem reloadCSV_id (tbl : List Event)
    (hder : ∀ r ∈ tbl, derivedEvent r)
    (hsafe : ∀ r ∈ tbl, safeCell r.period = true ∧ safeCell r.theme = true) :
    (reloadCSV tbl).map (fun r => (r.year_key, r.themes_list)) =
      tbl.map (fun r => (r.year_key, r.themes_list)) := by
  have hsplit := splitCSV_csv_bytes tbl
  have hread : read_csv (csv_bytes tbl) =
      ⟨REQUIRED_COLS,
        (List.range (tbl.map eventCells).length).map (fun i =>
          [(inferColumn ((tbl.map eventCells).map (fun r => r.getD 0 ""))).getD i .nan,
           (inferColumn ((tbl.map eventCells).map (fun r => r.getD 1 ""))).getD i .nan,
           (inferColumn ((tbl.map eventCells).map (fun r => r.getD 2 ""))).getD i .nan,
           (inferColumn ((tbl.map eventCells).map (fun r => r.getD 3 ""))).getD i .nan])⟩ := by
    unfold read_csv
    rw [hsplit]
    rfl
  have hcol0 : inferColumn ((tbl.map eventCells).map (fun r => r.getD 0 "")) =
      tbl.map (fun e => e.period) := by
    rw [List.map_map,
      show ((fun r => List.getD r 0 "") ∘ eventCells) = cellRepr ∘ (fun e => e.period) from
        funext (fun e => rfl),
      ← List.map_map]
    exact inferColumn_safe _ (fun v hv => by
      obtain ⟨e, he, hrfl⟩ := List.mem_map.1 hv
      rw [← hrfl]
      exact (hsafe e he).1)
  have hcol3 : inferColumn ((tbl.map eventCells).map (fun r => r.getD 3 "")) =
      tbl.map (fun e => e.theme) := by
    rw [List.map_map,
      show ((fun r => List.getD r 3 "") ∘ eventCells) = cellRepr ∘ (fun e => e.theme) from
        funext (fun e => rfl),
      ← List.map_map]
    exact inferColumn_safe _ (fun v hv => by
      obtain ⟨e, he, hrfl⟩ := List.mem_map.1 hv
      rw [← hrfl]
      exact (hsafe e he).2)
  simp only [hcol0, hcol3, List.length_map] at hread
  rw [reloadCSV, hread, normalize_columns_req]
  apply List.ext_getElem
  · simp
  · intro i h1 h2
    have hi : i < tbl.length := by simpa using h2
    simp only [List.getElem_map, List.getElem_range]
    show (first_year_from_text ((tbl.map (fun e => e.period)).getD i PyVal.nan),
        split_themes ((tbl.map (fun e => e.theme)).getD i PyVal.nan)) =
      ((tbl.get ⟨i, hi⟩).year_key, (tbl.get ⟨i, hi⟩).themes_list)
    rw [getD_map_lt (fun e => e.period) tbl i PyVal.nan hi,
      getD_map_lt (fun e => e.theme) tbl i PyVal.nan hi]
    have hd := hder (tbl.get ⟨i, hi⟩) (tbl.get_mem i hi)
    rw [hd.1, hd.2]

/-- C8 (counterexample): a filtered table containing a row whose
period is the pure number `"2001"` does not round-trip: the CSV reader
re-infers that column as integers, `first_year_from_text` then sees a
non-string and the re-derived `year_key` is the sentinel instead of
2001. -/
theorem C8_counterexample :
    derivedEvent ⟨.str "2001", .str "t", .str "d", .str "A", 2001, ["A"]⟩ ∧
    filter_df [⟨.str "2001", .str "t", .str "d", .str "A", 2001, ["A"]⟩] [] "" =
      [⟨.str "2001", .str "t", .str "d", .str "A", 2001, ["A"]⟩] ∧
    (reloadCSV (filter_df [⟨.str "2001", .str "t", .str "d", .str "A", 2001, ["A"]⟩] [] "")).map
        (fun r => r.year_key) = [10 ^ 9] ∧
    (reloadCSV (filter_df [⟨.str "2001", .str "t", .str "d", .str "A", 2001, ["A"]⟩] [] "")).map
        (fun r => (r.year_key, r.themes_list)) ≠
      (filter_df [⟨.str "2001", .str "t", .str "d", .str "A", 2001, ["A"]⟩] [] "").map
        (fun r => (r.year_key, r.themes_list)) := by
  refine ⟨⟨by decide, by decide⟩, by decide, by decide, by decide⟩

/-- C8 (amended): for every filtered table whose period and theme cells
are missing values or strings the CSV reader does not coerce (not
NA-like, not numeric-shaped, not boolean/infinity tokens), serializing
with `csv_bytes` and re-loading through `read_csv`, the Column
Normalizer and the Field Deriver yields the same `year_key` and
`themes_list` for every row.  (Without that proviso the claim fails:
integer-shaped or NA-like period/theme cells come back as non-strings.) -/
theorem C8_roundtrip (df : List Event) (sel : List String) (q : String)
    (hder : ∀ r ∈ df, derivedEvent r)
    (hsafe : ∀ r ∈ df, safeCell r.period = true ∧ safeCell r.theme = true) :
    (reloadCSV (filter_df df sel q)).map (fun r => (r.year_key, r.themes_list)) =
      (filter_df df sel q).map (fun r => (r.year_key, r.themes_list)) :=
  reloadCSV_id (filter_df df sel q)
    (fun r hr => hder r (mem_filter_df_sub hr))
    (fun r hr => hsafe r (mem_filter_df_sub hr))

/-- C8 witness: the round trip at a concrete safe one-row table. -/
theorem C8_witness :
    (∀ r ∈ [sampleGuerra], derivedEvent r) ∧
    (∀ r ∈ [sampleGuerra], safeCell r.period = true ∧ safeCell r.theme = true) ∧
    (reloadCSV (filter_df [sampleGuerra] [] "")).map (fun r => (r.year_key, r.themes_list)) =
      (filter_df [sampleGuerra] [] "").map (fun r => (r.year_key, r.themes_list)) :=
  ⟨fun r hr => by
      rw [List.mem_singleton] at hr
      subst hr
      exact ⟨by decide, by decide⟩,
    by decide,
    C8_roundtrip [sampleGuerra] [] ""
      (fun r hr => by
        rw [List.mem_singleton] at hr
        subst hr
        exact ⟨by decide, by decide⟩)
      (by decide)⟩

end Timeline
